import Mathlib

/-!
Shallow embedding of scripts/select_artworks_manual.py.

Python strings are modelled through their character lists (String.data);
str.lower() is Char.toLower character-wise (ASCII case mapping, which is
all the script's data exercises), str.strip() removes leading and trailing
whitespace characters.  The external generation call (network + sanitize +
json.loads + list check) is an oracle returning either a parsed record list
or an error standing for any raised exception.
-/

namespace ArtScript

/-- One artwork record, mirroring the JSON objects the script handles.
Fields are optional because Python dict lookups use .get with defaults. -/
structure Artwork where
  id : Option Nat := none
  title : Option String := none
  artist : Option String := none
  year : Option String := none
  category : Option String := none
  medium : Option String := none
  location : Option String := none
  region : Option String := none
  period : Option String := none
  movement : Option String := none
  deriving DecidableEq

/-- Remove trailing whitespace, as the end half of Python str.strip(). -/
def stripEnd (l : List Char) : List Char :=
  (l.reverse.dropWhile Char.isWhitespace).reverse

/-- Python str.strip() on a character list: drop leading and trailing whitespace. -/
def stripL (l : List Char) : List Char :=
  stripEnd (l.dropWhile Char.isWhitespace)

/-- Python str.strip() on strings. -/
def py_strip (s : String) : String := String.mk (stripL s.data)

/-- Python str.lower() on strings (ASCII case mapping). -/
def py_lower (s : String) : String := String.mk (s.data.map Char.toLower)

/-- The normalization applied to the artist and title fields:
str(x).lower().strip() from the source. -/
def norm_field (s : String) : String := py_strip (py_lower s)

/-- The IdentityKey of a record:
f-string artist.lower().strip() : title.lower().strip(), with missing
fields defaulting to the empty string (dict.get with default). -/
def identity_key (a : Artwork) : String :=
  norm_field (a.artist.getD "") ++ ":" ++ norm_field (a.title.getD "")

/-- The dedup scan of generate_batch: walk the parsed records, skip any whose
key is in the known-key set, and add each accepted key to the set at once so
within-batch repeats collapse to the first occurrence. -/
def unique_new_aux : List String → List Artwork → List Artwork
  | _, [] => []
  | keys, a :: rest =>
    if identity_key a ∈ keys then unique_new_aux keys rest
    else a :: unique_new_aux (identity_key a :: keys) rest

/-- Lines 266-282 of the source: build existing_keys from the known records
and keep only records with fresh keys. -/
def unique_new (existing_artworks parsed : List Artwork) : List Artwork :=
  unique_new_aux (existing_artworks.map identity_key) parsed

/-- BATCH_SIZE from the source configuration. -/
def BATCH_SIZE : Nat := 10

/-- DELAY_SECONDS from the source configuration (2.0 s, an exact integer). -/
def DELAY_SECONDS : Nat := 2

/-- The external generation boundary: arguments are the requested count, the
already-known records handed to generate_batch, and the batch number.  The
result is the sanitized parsed record list, or an error standing for any
exception raised up to and including the json parse and array check. -/
def Oracle : Type := Nat → List Artwork → Nat → Except Unit (List Artwork)

/-- The mutable state of the generate_category loop, plus a log of the sleep
durations (in seconds) so the backoff behaviour is observable. -/
structure CatState where
  new_artworks : List Artwork := []
  attempts : Nat := 0
  consecutive_low_yield : Nat := 0
  delays : List Nat := []
  deriving DecidableEq

/-- The adaptive batch size of one iteration (lines 303-308): with attempts
already bumped to s.attempts + 1, duplicate_buffer = min(5, attempts // 3)
and batch_size = min(BATCH_SIZE + duplicate_buffer, remaining + 5). -/
def batchSizeOf (target : Nat) (s : CatState) : Nat :=
  min (BATCH_SIZE + min 5 ((s.attempts + 1) / 3))
    ((target - s.new_artworks.length) + 5)

/-- The successful-iteration tail of the loop body (lines 319-341), applied
to the already-deduplicated batch: update the low-yield streak, append at
most the remaining-needed records, and record the chosen sleep. -/
def categoryStepOk (target : Nat) (s : CatState) (batch : List Artwork) :
    CatState :=
  let batch_size := batchSizeOf target s
  let low : Bool :=
    if 0 < batch_size then decide (2 * batch.length < batch_size) else true
  let cly := if low then s.consecutive_low_yield + 1 else 0
  let acc := s.new_artworks ++ batch.take (target - s.new_artworks.length)
  if 3 ≤ cly then
    { new_artworks := acc, attempts := s.attempts + 1,
      consecutive_low_yield := 0, delays := s.delays ++ [DELAY_SECONDS * 2] }
  else if acc.length < target then
    { new_artworks := acc, attempts := s.attempts + 1,
      consecutive_low_yield := cly, delays := s.delays ++ [DELAY_SECONDS] }
  else
    { new_artworks := acc, attempts := s.attempts + 1,
      consecutive_low_yield := cly, delays := s.delays }

/-- One iteration of the while loop of generate_category (lines 301-346):
call the generator with the adaptive batch size, the known records and the
batch number attempts - 1 = s.attempts, then either record a retry delay (an
exception was raised) or dedup and run the successful tail. -/
def categoryStep (gen : Oracle) (existing : List Artwork) (target : Nat)
    (s : CatState) : CatState :=
  match gen (batchSizeOf target s) (existing ++ s.new_artworks) s.attempts with
  | Except.error _ =>
    { s with attempts := s.attempts + 1,
             delays := s.delays ++ [DELAY_SECONDS * 2] }
  | Except.ok parsed =>
    categoryStepOk target s (unique_new (existing ++ s.new_artworks) parsed)

/-- The while loop of generate_category.  The loop guard in the source is
len(new_artworks) < target and attempts < max_attempts; since attempts
increases by exactly one per iteration, fuel = max_attempts - attempts is an
exact rendering of the second conjunct: fuel reaching zero is attempts
reaching max_attempts. -/
def categoryLoop (gen : Oracle) (existing : List Artwork) (target : Nat) :
    Nat → CatState → CatState
  | 0, s => s
  | fuel + 1, s =>
    if s.new_artworks.length < target then
      categoryLoop gen existing target fuel (categoryStep gen existing target s)
    else s

/-- Line 295 of the source: max_attempts = (target // BATCH_SIZE) + 20. -/
def max_attempts (target : Nat) : Nat := target / BATCH_SIZE + 20

/-- generate_category (lines 291-351): run the loop from the empty state with
the full attempt budget. -/
def generate_category (gen : Oracle) (existing : List Artwork) (target : Nat) :
    CatState :=
  categoryLoop gen existing target (max_attempts target) {}

/-- The characters of the opening fence marker matched by the first regex. -/
def fenceJson : List Char := "```json".data

/-- The characters of the bare fence marker matched by the second regex. -/
def fence3 : List Char := "```".data

/-- The backtick character (U+0060), named to talk about fence-free texts. -/
def btick : Char := Char.ofNat 96

/-- re.sub of the json fence followed by a whitespace run, scanned left to
right as the regex engine does; fuel bounds the recursion and any fuel at
least the list length yields the total behaviour because every step consumes
at least one character. -/
def subFenceJson : Nat → List Char → List Char
  | 0, l => l
  | _ + 1, [] => []
  | fuel + 1, c :: cs =>
    if (c :: cs).take 7 = fenceJson then
      subFenceJson fuel ((cs.drop 6).dropWhile Char.isWhitespace)
    else c :: subFenceJson fuel cs

/-- re.sub of the bare fence followed by a whitespace run. -/
def subFenceBare : Nat → List Char → List Char
  | 0, l => l
  | _ + 1, [] => []
  | fuel + 1, c :: cs =>
    if (c :: cs).take 3 = fence3 then
      subFenceBare fuel ((cs.drop 2).dropWhile Char.isWhitespace)
    else c :: subFenceBare fuel cs

/-- re.sub of a comma, optional whitespace, then a closing bracket or brace,
replaced by the bracket alone; scanning resumes after the bracket.  The
greedy whitespace run with backtracking is equivalent to looking at the first
non-whitespace character, because whitespace is never a closing bracket. -/
def subTrailingComma : Nat → List Char → List Char
  | 0, l => l
  | _ + 1, [] => []
  | fuel + 1, c :: cs =>
    if c = ',' then
      match cs.dropWhile Char.isWhitespace with
      | b :: rest =>
        if b = ']' ∨ b = '}' then b :: subTrailingComma fuel rest
        else c :: subTrailingComma fuel cs
      | [] => c :: subTrailingComma fuel cs
    else c :: subTrailingComma fuel cs

/-- The Response Sanitizer of generate_batch (lines 252-257): strip the json
fence, strip bare fences, trim, then delete trailing commas. -/
def sanitizeText (s : String) : String :=
  let t1 := subFenceJson s.data.length s.data
  let t2 := subFenceBare t1.length t1
  let t3 := stripL t2
  String.mk (subTrailingComma t3.length t3)

/-- Python enumerate-based id reassignment: record at index i gets id i+1. -/
def renumberFrom : Nat → List Artwork → List Artwork
  | _, [] => []
  | n, a :: rest => { a with id := some (n + 1) } :: renumberFrom (n + 1) rest

/-- Lines 429-430: reassign sequential ids over the merged list. -/
def renumber (l : List Artwork) : List Artwork := renumberFrom 0 l

/-- A record with its id erased, used to speak about all other fields. -/
def stripId (a : Artwork) : Artwork := { a with id := none }

/-- Count of records of a category, as the by_cat list comprehensions do. -/
def countCat (l : List Artwork) (c : String) : Nat :=
  (l.filter (fun a => a.category = some c)).length

/-- Lines 385-389: per-category gaps in the fixed dict insertion order.
Nat subtraction truncates at zero exactly as max(0, quota - count) does. -/
def gapsOf (existing : List Artwork) : List (String × Nat) :=
  [("painting", 200 - countCat existing "painting"),
   ("sculpture", 64 - countCat existing "sculpture"),
   ("architecture", 64 - countCat existing "architecture")]

/-- Line 391: total_needed = sum of the gaps. -/
def total_needed (existing : List Artwork) : Nat :=
  ((gapsOf existing).map Prod.snd).sum

/-- The placeholder credential the script refuses to run with. -/
def PLACEHOLDER_KEY : String := "YOUR_ACTUAL_API_KEY_HERE"

/-- Lines 416-423: run the Quota Filler for each category with a nonzero gap,
in the fixed category order, each against the original existing list, and
concatenate the new records in that order. -/
def allNewOf (gen : String → Oracle) (existing : List Artwork) : List Artwork :=
  (gapsOf existing).foldr
    (fun p rest =>
      (if p.2 = 0 then []
       else (generate_category (gen p.1) existing p.2).new_artworks) ++ rest)
    []

/-- Observable outcome of one run of main: a fatal configuration error (exit
before any output), the early return when nothing is needed (also no output),
or the single output write with its merged list and the reported original and
newly-generated counts. -/
inductive MainResult where
  | configError : MainResult
  | noNewNeeded : MainResult
  | written : List Artwork → Nat → Nat → MainResult
  deriving DecidableEq

/-- main (lines 357-453).  The input-file check comes first; the zero-gap
early return precedes the credential check, matching the source order; a run
that reaches generation always ends in exactly one output write. -/
def mainModel (inputExists : Bool) (apiKey : String) (gen : String → Oracle)
    (existing : List Artwork) : MainResult :=
  if inputExists = false then MainResult.configError
  else if total_needed existing = 0 then MainResult.noNewNeeded
  else if apiKey = PLACEHOLDER_KEY ∨ apiKey = "" then MainResult.configError
  else
    MainResult.written (renumber (existing ++ allNewOf gen existing))
      existing.length (allNewOf gen existing).length

/-! General list and character lemmas used throughout. -/

theorem dropWhile_head_false {α : Type} {p : α → Bool} :
    ∀ {l : List α} {b : α} {t : List α}, l.dropWhile p = b :: t → p b = false := by
  intro l
  induction l with
  | nil => intro b t h; simp at h
  | cons a l ih =>
    intro b t h
    by_cases ha : p a
    · rw [List.dropWhile_cons_of_pos ha] at h
      exact ih h
    · rw [List.dropWhile_cons_of_neg ha] at h
      cases h
      simpa using ha

theorem dropWhile_idem {α : Type} {p : α → Bool} (l : List α) :
    (l.dropWhile p).dropWhile p = l.dropWhile p := by
  cases h : l.dropWhile p with
  | nil => simp
  | cons b t =>
    exact List.dropWhile_cons_of_neg (by simp [dropWhile_head_false h])

theorem dropWhile_append_nil {α : Type} {p : α → Bool} {u : List α}
    (h : u.dropWhile p = []) (v : List α) :
    (u ++ v).dropWhile p = v.dropWhile p := by
  simp [List.dropWhile_append, h]

theorem dropWhile_append_cons {α : Type} {p : α → Bool} {u : List α} {b : α}
    {t : List α} (h : u.dropWhile p = b :: t) (v : List α) :
    (u ++ v).dropWhile p = b :: (t ++ v) := by
  simp [List.dropWhile_append, h]

theorem dropWhile_eq_nil_of_all {α : Type} {p : α → Bool} {l : List α}
    (h : ∀ a ∈ l, p a) : l.dropWhile p = [] :=
  List.dropWhile_eq_nil_iff.mpr h

theorem char_toNat_ofNat {m : Nat} (h : m < 55296) : (Char.ofNat m).toNat = m := by
  unfold Char.ofNat
  rw [dif_pos (Or.inl h)]
  rfl

theorem char_toLower_of_upper {c : Char} (h : 65 ≤ c.toNat ∧ c.toNat ≤ 90) :
    (Char.toLower c).toNat = c.toNat + 32 := by
  simp only [Char.toLower]
  rw [if_pos h]
  exact char_toNat_ofNat (by omega)

theorem char_toLower_of_not_upper {c : Char} (h : ¬(65 ≤ c.toNat ∧ c.toNat ≤ 90)) :
    Char.toLower c = c := by
  simp only [Char.toLower]
  rw [if_neg h]

theorem char_toLower_toLower (c : Char) :
    Char.toLower (Char.toLower c) = Char.toLower c := by
  by_cases h : 65 ≤ c.toNat ∧ c.toNat ≤ 90
  · have h1 := char_toLower_of_upper h
    exact char_toLower_of_not_upper (by omega)
  · rw [char_toLower_of_not_upper h, char_toLower_of_not_upper h]

theorem char_not_ws_of_ge {c : Char} (h : 65 ≤ c.toNat) :
    c.isWhitespace = false := by
  cases hw : c.isWhitespace
  · rfl
  · exfalso
    have hc : ((c = ' ' ∨ c = '\t') ∨ c = '\r') ∨ c = '\n' := by
      simpa [Char.isWhitespace] using hw
    rcases hc with ((rfl | rfl) | rfl) | rfl <;> exact absurd h (by decide)

theorem char_isWhitespace_toLower (c : Char) :
    (Char.toLower c).isWhitespace = c.isWhitespace := by
  by_cases h : 65 ≤ c.toNat ∧ c.toNat ≤ 90
  · have h1 := char_toLower_of_upper h
    rw [char_not_ws_of_ge (by omega), char_not_ws_of_ge (by omega)]
  · rw [char_toLower_of_not_upper h]

/-! Lemmas about the strip (Python str.strip) primitives. -/

theorem stripEnd_cons (c : Char) (t : List Char) :
    stripEnd (c :: t) =
      if stripEnd t = [] then (if c.isWhitespace then [] else [c])
      else c :: stripEnd t := by
  unfold stripEnd
  cases h : t.reverse.dropWhile Char.isWhitespace with
  | nil =>
    rw [List.reverse_cons, dropWhile_append_nil h]
    by_cases hc : c.isWhitespace <;> simp [hc]
  | cons b r =>
    rw [List.reverse_cons, dropWhile_append_cons h]
    simp [h]

theorem stripEnd_stripEnd (l : List Char) :
    stripEnd (stripEnd l) = stripEnd l := by
  unfold stripEnd
  rw [List.reverse_reverse, dropWhile_idem]

theorem stripL_stripL (l : List Char) : stripL (stripL l) = stripL l := by
  unfold stripL
  cases h : l.dropWhile Char.isWhitespace with
  | nil => simp [stripEnd]
  | cons b t =>
    have hb : Char.isWhitespace b = false := dropWhile_head_false h
    rw [stripEnd_cons]
    by_cases ht : stripEnd t = []
    · rw [if_pos ht, if_neg (by simp [hb])]
      simp [stripEnd, hb]
    · rw [if_neg ht, List.dropWhile_cons_of_neg (by simp [hb]), stripEnd_cons,
        stripEnd_stripEnd, if_neg ht]

theorem stripL_map (f : Char → Char)
    (hf : ∀ c, (f c).isWhitespace = c.isWhitespace) (l : List Char) :
    stripL (l.map f) = (stripL l).map f := by
  have hcomp : (Char.isWhitespace ∘ f) = Char.isWhitespace := by
    funext c
    exact hf c
  have hdw : ∀ m : List Char, (m.map f).dropWhile Char.isWhitespace
      = (m.dropWhile Char.isWhitespace).map f := by
    intro m
    rw [List.dropWhile_map, hcomp]
  unfold stripL stripEnd
  rw [hdw, ← List.map_reverse, hdw, List.map_reverse]

theorem stripL_append_ws (u x v : List Char)
    (hu : ∀ c ∈ u, c.isWhitespace) (hv : ∀ c ∈ v, c.isWhitespace) :
    stripL (u ++ x ++ v) = stripL x := by
  unfold stripL
  rw [List.append_assoc, List.dropWhile_append_of_pos hu]
  cases h : x.dropWhile Char.isWhitespace with
  | nil =>
    rw [dropWhile_append_nil h, dropWhile_eq_nil_of_all hv]
  | cons b t =>
    rw [dropWhile_append_cons h]
    unfold stripEnd
    rw [List.reverse_cons, List.reverse_append, List.append_assoc,
      List.dropWhile_append_of_pos (by intro c hc; exact hv c (List.mem_reverse.mp hc)),
      List.reverse_cons]

theorem stripL_eq_self {b e : Char} (mid : List Char)
    (hb : ¬ b.isWhitespace) (he : ¬ e.isWhitespace) :
    stripL (b :: (mid ++ [e])) = b :: (mid ++ [e]) := by
  unfold stripL stripEnd
  rw [List.dropWhile_cons_of_neg hb]
  simp only [List.reverse_cons, List.reverse_append, List.reverse_nil,
    List.nil_append, List.singleton_append, List.cons_append]
  rw [List.dropWhile_cons_of_neg he]
  simp

theorem stripL_nil_of_ws {l : List Char} (h : ∀ c ∈ l, c.isWhitespace) :
    stripL l = [] := by
  unfold stripL
  rw [dropWhile_eq_nil_of_all h]
  rfl

/-! Lemmas about the field normalization lower-then-strip. -/

theorem norm_field_data (s : String) :
    (norm_field s).data = stripL (s.data.map Char.toLower) := rfl

theorem norm_field_idem (s : String) :
    norm_field (norm_field s) = norm_field s := by
  unfold norm_field py_strip py_lower
  apply congrArg String.mk
  show stripL ((stripL (s.data.map Char.toLower)).map Char.toLower)
      = stripL (s.data.map Char.toLower)
  rw [← stripL_map Char.toLower char_isWhitespace_toLower, stripL_stripL,
    List.map_map]
  congr 1
  exact List.map_congr_left (fun c _ => char_toLower_toLower c)

theorem norm_field_ws_pad (s : String) (u v : List Char)
    (hu : ∀ c ∈ u, c.isWhitespace) (hv : ∀ c ∈ v, c.isWhitespace) :
    norm_field (String.mk (u ++ s.data ++ v)) = norm_field s := by
  unfold norm_field py_strip py_lower
  apply congrArg String.mk
  show stripL ((u ++ s.data ++ v).map Char.toLower)
      = stripL (s.data.map Char.toLower)
  rw [List.map_append, List.map_append]
  apply stripL_append_ws
  · intro c hc
    rcases List.mem_map.mp hc with ⟨d, hd, rfl⟩
    rw [char_isWhitespace_toLower]
    exact hu d hd
  · intro c hc
    rcases List.mem_map.mp hc with ⟨d, hd, rfl⟩
    rw [char_isWhitespace_toLower]
    exact hv d hd

theorem norm_field_of_lower_eq {s t : String}
    (h : s.data.map Char.toLower = t.data.map Char.toLower) :
    norm_field s = norm_field t := by
  unfold norm_field py_strip py_lower
  apply congrArg String.mk
  show stripL (s.data.map Char.toLower) = stripL (t.data.map Char.toLower)
  rw [h]

theorem norm_field_nil_of_ws {s : String} (h : ∀ c ∈ s.data, c.isWhitespace) :
    norm_field s = String.mk [] := by
  unfold norm_field py_strip py_lower
  apply congrArg String.mk
  apply stripL_nil_of_ws
  intro c hc
  rcases List.mem_map.mp hc with ⟨d, hd, rfl⟩
  rw [char_isWhitespace_toLower]
  exact h d hd

/-! Lemmas about the dedup scan of generate_batch. -/

theorem unique_new_aux_spec (parsed : List Artwork) :
    ∀ keys : List String,
      ((unique_new_aux keys parsed).map identity_key).Nodup ∧
      ∀ a ∈ unique_new_aux keys parsed, identity_key a ∉ keys := by
  induction parsed with
  | nil =>
    intro keys
    simp [unique_new_aux]
  | cons a rest ih =>
    intro keys
    by_cases h : identity_key a ∈ keys
    · simpa [unique_new_aux, h] using ih keys
    · have ih2 := ih (identity_key a :: keys)
      refine ⟨?_, ?_⟩
      · rw [unique_new_aux, if_neg h, List.map_cons, List.nodup_cons]
        refine ⟨?_, ih2.1⟩
        intro hmem
        rcases List.mem_map.mp hmem with ⟨b, hb, hkey⟩
        exact (ih2.2 b hb) (by rw [hkey]; exact List.mem_cons_self _ _)
      · intro b hb
        rw [unique_new_aux, if_neg h] at hb
        rcases List.mem_cons.mp hb with rfl | hb2
        · exact h
        · intro hbk
          exact (ih2.2 b hb2) (List.mem_cons_of_mem _ hbk)

theorem unique_new_nodup (existing_artworks parsed : List Artwork) :
    ((unique_new existing_artworks parsed).map identity_key).Nodup :=
  (unique_new_aux_spec parsed (existing_artworks.map identity_key)).1

theorem unique_new_fresh (existing_artworks parsed : List Artwork) :
    ∀ a ∈ unique_new existing_artworks parsed,
      identity_key a ∉ existing_artworks.map identity_key :=
  (unique_new_aux_spec parsed (existing_artworks.map identity_key)).2

/-! Lemmas about one loop iteration and the fuelled loop. -/

theorem categoryStepOk_new_artworks (target : Nat) (s : CatState)
    (batch : List Artwork) :
    (categoryStepOk target s batch).new_artworks
      = s.new_artworks ++ batch.take (target - s.new_artworks.length) := by
  simp only [categoryStepOk]
  split_ifs <;> rfl

theorem categoryStepOk_attempts (target : Nat) (s : CatState)
    (batch : List Artwork) :
    (categoryStepOk target s batch).attempts = s.attempts + 1 := by
  simp only [categoryStepOk]
  split_ifs <;> rfl

theorem categoryStep_attempts (gen : Oracle) (existing : List Artwork)
    (target : Nat) (s : CatState) :
    (categoryStep gen existing target s).attempts = s.attempts + 1 := by
  unfold categoryStep
  cases gen (batchSizeOf target s) (existing ++ s.new_artworks) s.attempts with
  | error e => rfl
  | ok parsed => exact categoryStepOk_attempts _ _ _

theorem categoryStep_error (gen : Oracle) (existing : List Artwork)
    (target : Nat) (s : CatState) (e : Unit)
    (hg : gen (batchSizeOf target s) (existing ++ s.new_artworks) s.attempts
      = Except.error e) :
    categoryStep gen existing target s =
      { s with attempts := s.attempts + 1,
               delays := s.delays ++ [DELAY_SECONDS * 2] } := by
  unfold categoryStep
  rw [hg]

theorem categoryStep_len_le (gen : Oracle) (existing : List Artwork)
    (target : Nat) (s : CatState) (hlt : s.new_artworks.length < target) :
    (categoryStep gen existing target s).new_artworks.length ≤ target := by
  unfold categoryStep
  cases gen (batchSizeOf target s) (existing ++ s.new_artworks) s.attempts with
  | error e => exact Nat.le_of_lt hlt
  | ok parsed =>
    rw [categoryStepOk_new_artworks, List.length_append]
    have := List.length_take_le (target - s.new_artworks.length)
      (unique_new (existing ++ s.new_artworks) parsed)
    omega

/-- The uniqueness invariant carried by the loop: the accumulated records
have pairwise distinct keys and none of their keys occurs in existing. -/
def KeysOK (existing : List Artwork) (s : CatState) : Prop :=
  (s.new_artworks.map identity_key).Nodup ∧
  ∀ a ∈ s.new_artworks, identity_key a ∉ existing.map identity_key

theorem categoryStep_keys (gen : Oracle) (existing : List Artwork)
    (target : Nat) (s : CatState) (h : KeysOK existing s) :
    KeysOK existing (categoryStep gen existing target s) := by
  unfold categoryStep
  cases gen (batchSizeOf target s) (existing ++ s.new_artworks) s.attempts with
  | error e => exact h
  | ok parsed =>
    have hnodupB := unique_new_nodup (existing ++ s.new_artworks) parsed
    have hfreshB := unique_new_fresh (existing ++ s.new_artworks) parsed
    constructor
    · rw [KeysOK] at h
      show ((categoryStepOk _ _ _).new_artworks.map identity_key).Nodup
      rw [categoryStepOk_new_artworks, List.map_append]
      rw [List.nodup_append]
      refine ⟨h.1, ?_, ?_⟩
      · exact hnodupB.sublist ((List.take_sublist _ _).map identity_key)
      · intro k hk1 hk2
        rcases List.mem_map.mp hk2 with ⟨b, hb, rfl⟩
        have hbB := List.mem_of_mem_take hb
        have := hfreshB b hbB
        rw [List.map_append] at this
        exact this (List.mem_append_right _ hk1)
    · intro a ha
      show identity_key a ∉ existing.map identity_key
      rw [categoryStepOk_new_artworks] at ha
      rcases List.mem_append.mp ha with ha1 | ha2
      · exact h.2 a ha1
      · have haB := List.mem_of_mem_take ha2
        have := hfreshB a haB
        rw [List.map_append] at this
        intro hmem
        exact this (List.mem_append_left _ hmem)

theorem categoryLoop_keys (gen : Oracle) (existing : List Artwork)
    (target : Nat) :
    ∀ (fuel : Nat) (s : CatState), KeysOK existing s →
      KeysOK existing (categoryLoop gen existing target fuel s) := by
  intro fuel
  induction fuel with
  | zero => intro s h; exact h
  | succ n ih =>
    intro s h
    rw [categoryLoop]
    split
    · exact ih _ (categoryStep_keys _ _ _ _ h)
    · exact h

theorem categoryLoop_len_le (gen : Oracle) (existing : List Artwork)
    (target : Nat) :
    ∀ (fuel : Nat) (s : CatState), s.new_artworks.length ≤ target →
      (categoryLoop gen existing target fuel s).new_artworks.length ≤ target := by
  intro fuel
  induction fuel with
  | zero => intro s h; exact h
  | succ n ih =>
    intro s h
    rw [categoryLoop]
    split
    · next hlt => exact ih _ (categoryStep_len_le _ _ _ _ hlt)
    · exact h

theorem categoryLoop_attempts_le (gen : Oracle) (existing : List Artwork)
    (target : Nat) :
    ∀ (fuel : Nat) (s : CatState),
      (categoryLoop gen existing target fuel s).attempts ≤ s.attempts + fuel := by
  intro fuel
  induction fuel with
  | zero => intro s; exact Nat.le_refl _
  | succ n ih =>
    intro s
    rw [categoryLoop]
    split
    · have := ih (categoryStep gen existing target s)
      rw [categoryStep_attempts] at this
      omega
    · omega

theorem categoryLoop_terminal (gen : Oracle) (existing : List Artwork)
    (target : Nat) :
    ∀ (fuel : Nat) (s : CatState),
      target ≤ (categoryLoop gen existing target fuel s).new_artworks.length ∨
      (categoryLoop gen existing target fuel s).attempts = s.attempts + fuel := by
  intro fuel
  induction fuel with
  | zero => intro s; right; rfl
  | succ n ih =>
    intro s
    rw [categoryLoop]
    split
    · next hlt =>
      rcases ih (categoryStep gen existing target s) with h1 | h2
      · left; exact h1
      · right
        rw [h2, categoryStep_attempts]
        omega
    · next hge => left; omega

/-! Lemmas about renumbering and the main driver. -/

theorem renumberFrom_length : ∀ (n : Nat) (l : List Artwork),
    (renumberFrom n l).length = l.length := by
  intro n l
  induction l generalizing n with
  | nil => rfl
  | cons a rest ih => simp [renumberFrom, ih]

theorem renumberFrom_map_id : ∀ (n : Nat) (l : List Artwork),
    (renumberFrom n l).map (fun a => a.id)
      = (List.range l.length).map (fun i => some (n + i + 1)) := by
  intro n l
  induction l generalizing n with
  | nil => rfl
  | cons a rest ih =>
    rw [renumberFrom, List.map_cons, ih (n + 1), List.length_cons,
      List.range_succ_eq_map, List.map_cons, List.map_map]
    refine congrArg₂ _ (by simp) ?_
    apply List.map_congr_left
    intro i _
    show some (n + 1 + i + 1) = some (n + (i + 1) + 1)
    congr 1
    omega

theorem renumberFrom_map_stripId : ∀ (n : Nat) (l : List Artwork),
    (renumberFrom n l).map stripId = l.map stripId := by
  intro n l
  induction l generalizing n with
  | nil => rfl
  | cons a rest ih =>
    rw [renumberFrom, List.map_cons, List.map_cons, ih (n + 1)]
    rfl

theorem renumberFrom_append : ∀ (n : Nat) (l1 l2 : List Artwork),
    renumberFrom n (l1 ++ l2)
      = renumberFrom n l1 ++ renumberFrom (n + l1.length) l2 := by
  intro n l1
  induction l1 generalizing n with
  | nil => intro l2; simp [renumberFrom]
  | cons a rest ih =>
    intro l2
    rw [List.cons_append, renumberFrom, renumberFrom, ih (n + 1) l2,
      List.cons_append, List.length_cons]
    have : n + 1 + rest.length = n + (rest.length + 1) := by omega
    rw [this]

theorem mainModel_written (apiKey : String) (gen : String → Oracle)
    (existing : List Artwork) (hkey : apiKey ≠ PLACEHOLDER_KEY)
    (hkey2 : apiKey ≠ "") (hneed : total_needed existing ≠ 0) :
    mainModel true apiKey gen existing
      = MainResult.written (renumber (existing ++ allNewOf gen existing))
          existing.length (allNewOf gen existing).length := by
  unfold mainModel
  rw [if_neg (by simp), if_neg hneed, if_neg (by
    intro hor
    rcases hor with h1 | h2
    · exact hkey h1
    · exact hkey2 h2)]

/-! Lemmas about the Response Sanitizer. -/

theorem fenceJson_cons :
    fenceJson = btick :: btick :: btick :: 'j' :: 's' :: 'o' :: 'n' :: [] := by
  decide

theorem fence3_cons : fence3 = btick :: btick :: btick :: [] := by decide

theorem subFenceJson_nil : ∀ fuel : Nat, subFenceJson fuel [] = [] := by
  intro fuel
  cases fuel <;> rfl

theorem subFenceBare_nil : ∀ fuel : Nat, subFenceBare fuel [] = [] := by
  intro fuel
  cases fuel <;> rfl

theorem subFenceJson_pass : ∀ (l : List Char) (fuel : Nat) (r : List Char),
    (∀ c ∈ l, c ≠ btick) → l.length ≤ fuel →
    subFenceJson fuel (l ++ r) = l ++ subFenceJson (fuel - l.length) r := by
  intro l
  induction l with
  | nil => intro fuel r _ _; simp
  | cons c l' ih =>
    intro fuel r hbt hlen
    rw [List.length_cons] at hlen
    obtain ⟨f, rfl⟩ : ∃ f, fuel = f + 1 := ⟨fuel - 1, by omega⟩
    have hneg : ¬ ((c :: (l' ++ r)).take 7 = fenceJson) := by
      intro htake
      rw [fenceJson_cons, show (7 : Nat) = 6 + 1 from rfl,
        List.take_succ_cons] at htake
      injection htake with h1 h2
      exact hbt c (List.mem_cons_self c l') h1
    rw [List.cons_append]
    simp only [subFenceJson]
    rw [if_neg hneg, ih f r (fun d hd => hbt d (List.mem_cons_of_mem _ hd))
      (by omega), List.length_cons, Nat.succ_sub_succ]
    rfl

theorem subFenceJson_fence (f : Nat) (t : List Char) :
    subFenceJson (f + 1) (fenceJson ++ t)
      = subFenceJson f (t.dropWhile Char.isWhitespace) := by
  rw [fenceJson_cons, List.cons_append]
  simp only [subFenceJson]
  rw [if_pos (by
    rw [show (7 : Nat) = 6 + 1 from rfl, List.take_succ_cons,
      List.take_left' (by rfl), fenceJson_cons]), List.drop_left' (by rfl)]

theorem subFenceJson_fence3 (fuel : Nat) (h : 3 ≤ fuel) :
    subFenceJson fuel fence3 = fence3 := by
  obtain ⟨f, rfl⟩ : ∃ f, fuel = (f + 2) + 1 := ⟨fuel - 3, by omega⟩
  rw [fence3_cons]
  simp only [subFenceJson]
  rw [if_neg (by decide), if_neg (by decide), if_neg (by decide)]
  simp [subFenceJson_nil]

theorem subFenceBare_pass : ∀ (l : List Char) (fuel : Nat) (r : List Char),
    (∀ c ∈ l, c ≠ btick) → l.length ≤ fuel →
    subFenceBare fuel (l ++ r) = l ++ subFenceBare (fuel - l.length) r := by
  intro l
  induction l with
  | nil => intro fuel r _ _; simp
  | cons c l' ih =>
    intro fuel r hbt hlen
    rw [List.length_cons] at hlen
    obtain ⟨f, rfl⟩ : ∃ f, fuel = f + 1 := ⟨fuel - 1, by omega⟩
    have hneg : ¬ ((c :: (l' ++ r)).take 3 = fence3) := by
      intro htake
      rw [fence3_cons, show (3 : Nat) = 2 + 1 from rfl,
        List.take_succ_cons] at htake
      injection htake with h1 h2
      exact hbt c (List.mem_cons_self c l') h1
    rw [List.cons_append]
    simp only [subFenceBare]
    rw [if_neg hneg, ih f r (fun d hd => hbt d (List.mem_cons_of_mem _ hd))
      (by omega), List.length_cons, Nat.succ_sub_succ]
    rfl

theorem subFenceBare_fence3 (fuel : Nat) (h : 1 ≤ fuel) :
    subFenceBare fuel fence3 = [] := by
  obtain ⟨f, rfl⟩ : ∃ f, fuel = f + 1 := ⟨fuel - 1, by omega⟩
  rw [fence3_cons]
  simp only [subFenceBare]
  rw [if_pos (by decide)]
  rw [show (btick :: btick :: ([] : List Char)).drop 2 = [] from rfl]
  simp [subFenceBare_nil]

/-- A text is comma-clean when no comma in it is followed, after optional
whitespace, by a closing bracket or brace, so the trailing-comma regex never
fires inside it. -/
def commaCleanL : List Char → Bool
  | [] => true
  | c :: rest =>
    (if c = ',' then
      match rest.dropWhile Char.isWhitespace with
      | b :: _ => decide (b ≠ ']' ∧ b ≠ '}')
      | [] => true
     else true) && commaCleanL rest

theorem subTrailingComma_nil : ∀ fuel : Nat, subTrailingComma fuel [] = [] := by
  intro fuel
  cases fuel <;> rfl

theorem subTrailingComma_clean : ∀ (inner : List Char) (fuel : Nat),
    commaCleanL inner = true → inner.length + 2 ≤ fuel →
    subTrailingComma fuel (inner ++ [',', ']']) = inner ++ [']'] := by
  intro inner
  induction inner with
  | nil =>
    intro fuel _ hf
    obtain ⟨f, rfl⟩ : ∃ f, fuel = f + 1 := ⟨fuel - 1, by omega⟩
    rw [List.nil_append, List.nil_append]
    simp only [subTrailingComma]
    simp [subTrailingComma_nil]
  | cons c rest ih =>
    intro fuel hclean hf
    rw [List.length_cons] at hf
    obtain ⟨f, rfl⟩ : ∃ f, fuel = f + 1 := ⟨fuel - 1, by omega⟩
    rw [commaCleanL, Bool.and_eq_true] at hclean
    rw [List.cons_append]
    simp only [subTrailingComma]
    by_cases hc : c = ','
    · rw [if_pos hc]
      split
      · next b t heq =>
        have hbr : ¬ (b = ']' ∨ b = '}') := by
          cases hr : rest.dropWhile Char.isWhitespace with
          | nil =>
            rw [dropWhile_append_nil hr,
              show ([',', ']'] : List Char).dropWhile Char.isWhitespace
                = [',', ']'] from by decide] at heq
            injection heq with h1 h2
            rw [← h1]
            decide
          | cons b' t' =>
            rw [dropWhile_append_cons hr] at heq
            injection heq with h1 h2
            have hcl := hclean.1
            rw [if_pos hc, hr] at hcl
            simp only [decide_eq_true_eq] at hcl
            rw [← h1]
            tauto
        rw [if_neg hbr, ih f hclean.2 (by omega)]
        rfl
      · next heq =>
        rw [ih f hclean.2 (by omega)]
        rfl
    · rw [if_neg hc, ih f hclean.2 (by omega)]
      rfl

/-! Claim theorems. -/

/-- C1: for every positive target T, the Quota Filler performs at most
max_attempts T = T / BATCH_SIZE + 20 iterations (the final attempts counter
is the number of iterations performed, each iteration incrementing it once),
and it ends in one of the two terminal states: accumulated length at least
the target, or the attempt ceiling reached — for every oracle, including
ones that always raise or always return fully duplicate batches. -/
theorem C1_attempt_bound (gen : Oracle) (existing : List Artwork)
    (target : Nat) (_hpos : 0 < target) :
    (generate_category gen existing target).attempts ≤ max_attempts target ∧
    (target ≤ (generate_category gen existing target).new_artworks.length ∨
      (generate_category gen existing target).attempts = max_attempts target) := by
  constructor
  · simpa [generate_category] using
      categoryLoop_attempts_le gen existing target (max_attempts target) {}
  · simpa [generate_category] using
      categoryLoop_terminal gen existing target (max_attempts target) {}

/-- Witness for C1 at target 10 with an oracle that always raises. -/
theorem C1_attempt_bound_witness :
    0 < 10 ∧
    ((generate_category (fun _ _ _ => Except.error ()) [] 10).attempts
        ≤ max_attempts 10 ∧
      (10 ≤ (generate_category (fun _ _ _ => Except.error ())
          [] 10).new_artworks.length ∨
        (generate_category (fun _ _ _ => Except.error ()) [] 10).attempts
          = max_attempts 10)) :=
  ⟨by decide, C1_attempt_bound (fun _ _ _ => Except.error ()) [] 10 (by decide)⟩

/-- C2: if the existing records passed in have pairwise distinct
IdentityKeys, then existing together with the records accumulated by any run
of the Quota Filler still has pairwise distinct IdentityKeys; the dedup scan
extends the known-key set as each record is accepted, so within-batch
repeats collapse to the first occurrence. -/
theorem C2_no_duplicate_keys (gen : Oracle) (existing : List Artwork)
    (target : Nat) (hex : (existing.map identity_key).Nodup) :
    ((existing
        ++ (generate_category gen existing target).new_artworks).map
      identity_key).Nodup := by
  have hres : KeysOK existing (generate_category gen existing target) := by
    simpa [generate_category] using
      categoryLoop_keys gen existing target (max_attempts target) {}
        ⟨List.nodup_nil, by simp⟩
  rw [List.map_append, List.nodup_append]
  refine ⟨hex, hres.1, ?_⟩
  intro k hk1 hk2
  rcases List.mem_map.mp hk2 with ⟨b, hb, rfl⟩
  exact hres.2 b hb hk1

/-- Witness for C2 with one existing record and an always-raising oracle. -/
theorem C2_no_duplicate_keys_witness :
    (([{ artist := some "a", title := some "t" }] : List Artwork).map
      identity_key).Nodup ∧
    ((([{ artist := some "a", title := some "t" }] : List Artwork)
        ++ (generate_category (fun _ _ _ => Except.error ())
          [{ artist := some "a", title := some "t" }] 1).new_artworks).map
      identity_key).Nodup :=
  ⟨by decide,
    C2_no_duplicate_keys (fun _ _ _ => Except.error ())
      [{ artist := some "a", title := some "t" }] 1 (by decide)⟩

/-- C3: the accumulated list never exceeds the target at any iteration:
every loop continuation started within the bound stays within it, because
each iteration appends at most the remaining-needed prefix of the batch, and
the full run from the empty state returns at most target records. -/
theorem C3_never_exceed_target (gen : Oracle) (existing : List Artwork)
    (target : Nat) :
    (∀ (fuel : Nat) (s : CatState), s.new_artworks.length ≤ target →
      (categoryLoop gen existing target fuel s).new_artworks.length
        ≤ target) ∧
    (generate_category gen existing target).new_artworks.length ≤ target := by
  refine ⟨categoryLoop_len_le gen existing target, ?_⟩
  simpa [generate_category] using
    categoryLoop_len_le gen existing target (max_attempts target) {} (by simp)

/-- Witness for C3 realizing the spec example: target 5 and a batch of 8
unique records, started from the empty state. -/
theorem C3_never_exceed_target_witness :
    (({} : CatState).new_artworks.length ≤ 5) ∧
    (categoryLoop
        (fun _ _ _ => Except.ok
          [{ title := some "t1" }, { title := some "t2" },
           { title := some "t3" }, { title := some "t4" },
           { title := some "t5" }, { title := some "t6" },
           { title := some "t7" }, { title := some "t8" }])
        [] 5 20 {}).new_artworks.length ≤ 5 :=
  ⟨by decide,
    (C3_never_exceed_target
      (fun _ _ _ => Except.ok
        [{ title := some "t1" }, { title := some "t2" },
         { title := some "t3" }, { title := some "t4" },
         { title := some "t5" }, { title := some "t6" },
         { title := some "t7" }, { title := some "t8" }])
      [] 5).1 20 {} (by decide)⟩

/-- C6: a Malformed Response — any exception raised by the generation call
as modelled by the oracle returning an error — is absorbed inside the loop:
that iteration counts toward the attempt budget, contributes zero new
records, logs the strictly positive, bounded backoff delay
DELAY_SECONDS * 2, and the loop continues with the next attempt; the filler
still returns a (possibly shorter than target) record list. -/
theorem C6_error_absorbed (gen : Oracle) (existing : List Artwork)
    (target : Nat) (fuel : Nat) (s : CatState) (e : Unit)
    (hlt : s.new_artworks.length < target)
    (hg : gen (batchSizeOf target s) (existing ++ s.new_artworks) s.attempts
      = Except.error e) :
    (categoryStep gen existing target s).new_artworks = s.new_artworks ∧
    (categoryStep gen existing target s).attempts = s.attempts + 1 ∧
    (categoryStep gen existing target s).delays
      = s.delays ++ [DELAY_SECONDS * 2] ∧
    0 < DELAY_SECONDS * 2 ∧ DELAY_SECONDS * 2 ≤ 4 ∧
    categoryLoop gen existing target (fuel + 1) s
      = categoryLoop gen existing target fuel
          (categoryStep gen existing target s) ∧
    (generate_category gen existing target).new_artworks.length ≤ target := by
  have hstep := categoryStep_error gen existing target s e hg
  refine ⟨by rw [hstep], by rw [hstep], by rw [hstep], by decide, by decide,
    ?_, ?_⟩
  · rw [categoryLoop, if_pos hlt]
  · simpa [generate_category] using
      categoryLoop_len_le gen existing target (max_attempts target) {} (by simp)

/-- Witness for C6: an oracle that always raises, called on the empty
starting state with target 3. -/
theorem C6_error_absorbed_witness :
    ((({} : CatState).new_artworks.length < 3) ∧
        ((fun _ _ _ => Except.error ()) : Oracle) (batchSizeOf 3 {})
          ([] ++ ({} : CatState).new_artworks) ({} : CatState).attempts
          = Except.error ()) ∧
    ((categoryStep (fun _ _ _ => Except.error ()) [] 3 {}).new_artworks
        = ({} : CatState).new_artworks ∧
      (categoryStep (fun _ _ _ => Except.error ()) [] 3 {}).attempts
        = ({} : CatState).attempts + 1 ∧
      (categoryStep (fun _ _ _ => Except.error ()) [] 3 {}).delays
        = ({} : CatState).delays ++ [DELAY_SECONDS * 2] ∧
      0 < DELAY_SECONDS * 2 ∧ DELAY_SECONDS * 2 ≤ 4 ∧
      categoryLoop (fun _ _ _ => Except.error ()) [] 3 (7 + 1) {}
        = categoryLoop (fun _ _ _ => Except.error ()) [] 3 7
            (categoryStep (fun _ _ _ => Except.error ()) [] 3 {}) ∧
      (generate_category (fun _ _ _ => Except.error ())
          [] 3).new_artworks.length ≤ 3) :=
  ⟨⟨by decide, rfl⟩,
    C6_error_absorbed (fun _ _ _ => Except.error ()) [] 3 7 {} ()
      (by decide) rfl⟩

theorem generate_category_keys (gen : Oracle) (existing : List Artwork)
    (target : Nat) :
    KeysOK existing (generate_category gen existing target) := by
  simpa [generate_category] using
    categoryLoop_keys gen existing target (max_attempts target) {}
      ⟨List.nodup_nil, by simp⟩

theorem length_filter_key_le_one {α β : Type} [DecidableEq β] {f : α → β}
    {l : List α} (h : (l.map f).Nodup) (k : β) :
    (l.filter (fun a => f a = k)).length ≤ 1 := by
  induction l with
  | nil => simp
  | cons a rest ih =>
    rw [List.map_cons, List.nodup_cons] at h
    by_cases hk : f a = k
    · rw [List.filter_cons_of_pos (by simp [hk])]
      have hnil : rest.filter (fun a => f a = k) = [] := by
        rw [List.filter_eq_nil_iff]
        intro b hb
        simp only [decide_eq_true_eq]
        intro hfb
        exact h.1 (List.mem_map.mpr ⟨b, hb, by rw [hfb, hk]⟩)
      rw [hnil]
      simp
    · rw [List.filter_cons_of_neg (by simp [hk])]
      exact ih h.2

/-- C8: IdentityKey computation is deterministic and its normalization
idempotent; keys ignore letter case and surrounding whitespace of the artist
and title fields; a missing artist or title behaves as the empty string, so
the key computation is total and always succeeds. -/
theorem C8_identity_key_normalization :
    (∀ a : Artwork, identity_key a = identity_key a) ∧
    (∀ s : String, norm_field (norm_field s) = norm_field s) ∧
    (∀ a b : Artwork,
      norm_field (a.artist.getD "") = norm_field (b.artist.getD "") →
      norm_field (a.title.getD "") = norm_field (b.title.getD "") →
      identity_key a = identity_key b) ∧
    (∀ (s : String) (u v : List Char),
      (∀ c ∈ u, c.isWhitespace) → (∀ c ∈ v, c.isWhitespace) →
      norm_field (String.mk (u ++ s.data ++ v)) = norm_field s) ∧
    (∀ s t : String, s.data.map Char.toLower = t.data.map Char.toLower →
      norm_field s = norm_field t) ∧
    (∀ a : Artwork,
      identity_key { a with artist := none }
          = identity_key { a with artist := some "" } ∧
        identity_key { a with title := none }
          = identity_key { a with title := some "" }) := by
  refine ⟨fun a => rfl, norm_field_idem, ?_, norm_field_ws_pad,
    fun s t h => norm_field_of_lower_eq h, fun a => ⟨rfl, rfl⟩⟩
  intro a b h1 h2
  unfold identity_key
  rw [h1, h2]

/-- Witness for C8: the two example records of the spec, differing only in
case and surrounding whitespace, have the same key. -/
theorem C8_identity_key_normalization_witness :
    (norm_field ((({ artist := some " Rembrandt ", title := some "The Night Watch" } : Artwork)).artist.getD "")
        = norm_field ((({ artist := some "rembrandt", title := some "the night watch" } : Artwork)).artist.getD "") ∧
      norm_field ((({ artist := some " Rembrandt ", title := some "The Night Watch" } : Artwork)).title.getD "")
        = norm_field ((({ artist := some "rembrandt", title := some "the night watch" } : Artwork)).title.getD "")) ∧
    identity_key { artist := some " Rembrandt ", title := some "The Night Watch" }
      = identity_key { artist := some "rembrandt", title := some "the night watch" } :=
  ⟨⟨by decide, by decide⟩,
    C8_identity_key_normalization.2.2.1
      { artist := some " Rembrandt ", title := some "The Night Watch" }
      { artist := some "rembrandt", title := some "the night watch" }
      (by decide) (by decide)⟩

/-- C10: duplicate detection depends only on the artist and title fields;
a record whose artist and title are both missing or whitespace-only gets
the degenerate key consisting of the separator alone; within one run of the
Quota Filler at most one record with any given key is accepted, and none is
accepted when an existing record already carries that key. -/
theorem C10_degenerate_key :
    (∀ a b : Artwork, a.artist = b.artist → a.title = b.title →
      identity_key a = identity_key b) ∧
    (∀ a : Artwork,
      (∀ c ∈ (a.artist.getD "").data, c.isWhitespace) →
      (∀ c ∈ (a.title.getD "").data, c.isWhitespace) →
      identity_key a = ":") ∧
    (∀ (gen : Oracle) (existing : List Artwork) (target : Nat) (k : String),
      ((generate_category gen existing target).new_artworks.filter
        (fun a => identity_key a = k)).length ≤ 1) ∧
    (∀ (gen : Oracle) (existing : List Artwork) (target : Nat) (e : Artwork),
      e ∈ existing → identity_key e = ":" →
      (generate_category gen existing target).new_artworks.filter
        (fun a => identity_key a = ":") = []) := by
  refine ⟨?_, ?_, ?_, ?_⟩
  · intro a b h1 h2
    unfold identity_key
    rw [h1, h2]
  · intro a h1 h2
    unfold identity_key
    rw [norm_field_nil_of_ws h1, norm_field_nil_of_ws h2]
    decide
  · intro gen existing target k
    exact length_filter_key_le_one (generate_category_keys gen existing target).1 k
  · intro gen existing target e he hkey
    rw [List.filter_eq_nil_iff]
    intro b hb
    simp only [decide_eq_true_eq]
    intro hfb
    exact (generate_category_keys gen existing target).2 b hb
      (List.mem_map.mpr ⟨e, he, by rw [hkey, hfb]⟩)

/-- Witness for C10: a record with a whitespace-only artist and a missing
title normalizes to the degenerate separator key. -/
theorem C10_degenerate_key_witness :
    ((∀ c ∈ ((({ artist := some "  " } : Artwork)).artist.getD "").data,
        c.isWhitespace) ∧
      (∀ c ∈ ((({ artist := some "  " } : Artwork)).title.getD "").data,
        c.isWhitespace)) ∧
    identity_key ({ artist := some "  " } : Artwork) = ":" :=
  ⟨⟨by decide, by decide⟩,
    C10_degenerate_key.2.1 { artist := some "  " } (by decide) (by decide)⟩

theorem mainModel_written_inv (inputExists : Bool) (apiKey : String)
    (gen : String → Oracle) (existing : List Artwork) (out : List Artwork)
    (orig extra : Nat)
    (h : mainModel inputExists apiKey gen existing
      = MainResult.written out orig extra) :
    out = renumber (existing ++ allNewOf gen existing) := by
  unfold mainModel at h
  by_cases h1 : inputExists = false
  · rw [if_pos h1] at h
    exact MainResult.noConfusion h
  · rw [if_neg h1] at h
    by_cases h2 : total_needed existing = 0
    · rw [if_pos h2] at h
      exact MainResult.noConfusion h
    · rw [if_neg h2] at h
      by_cases h3 : apiKey = PLACEHOLDER_KEY ∨ apiKey = ""
      · rw [if_pos h3] at h
        exact MainResult.noConfusion h
      · rw [if_neg h3] at h
        injection h with hA hB hC
        exact hA.symm

/-- C4: in any run that writes output, the merged sequence carries the id
values 1..N exactly once each, in concatenation order — existing records
first in their original order, then the per-category new records in the
fixed category-enumeration order — while every other field matches the
plain concatenation. -/
theorem C4_sequential_ids (inputExists : Bool) (apiKey : String)
    (gen : String → Oracle) (existing : List Artwork) (out : List Artwork)
    (orig extra : Nat)
    (h : mainModel inputExists apiKey gen existing
      = MainResult.written out orig extra) :
    out.map (fun a => a.id)
        = (List.range out.length).map (fun i => some (i + 1)) ∧
    out.map stripId = (existing ++ allNewOf gen existing).map stripId ∧
    out.length = existing.length + (allNewOf gen existing).length := by
  have hout := mainModel_written_inv inputExists apiKey gen existing out
    orig extra h
  refine ⟨?_, ?_, ?_⟩
  · rw [hout]
    unfold renumber
    rw [renumberFrom_map_id, renumberFrom_length]
    apply List.map_congr_left
    intro i _
    simp
  · rw [hout]
    exact renumberFrom_map_stripId 0 _
  · rw [hout]
    unfold renumber
    rw [renumberFrom_length, List.length_append]

set_option maxRecDepth 100000 in
/-- Witness for C4: a one-record dataset and an always-raising oracle. -/
theorem C4_sequential_ids_witness :
    (mainModel true "k" (fun _ _ _ _ => Except.error ())
        [{ id := some 7, category := some "painting" }]
      = MainResult.written [{ id := some 1, category := some "painting" }] 1 0) ∧
    (([{ id := some 1, category := some "painting" }] : List Artwork).map
          (fun a => a.id)
        = (List.range ([{ id := some 1, category := some "painting" }] : List Artwork).length).map
          (fun i => some (i + 1)) ∧
      ([{ id := some 1, category := some "painting" }] : List Artwork).map stripId
        = (([{ id := some 7, category := some "painting" }] : List Artwork)
            ++ allNewOf (fun _ _ _ _ => Except.error ())
              [{ id := some 7, category := some "painting" }]).map stripId ∧
      ([{ id := some 1, category := some "painting" }] : List Artwork).length
        = ([{ id := some 7, category := some "painting" }] : List Artwork).length
          + (allNewOf (fun _ _ _ _ => Except.error ())
              [{ id := some 7, category := some "painting" }]).length) :=
  ⟨by decide,
    C4_sequential_ids true "k" (fun _ _ _ _ => Except.error ())
      [{ id := some 7, category := some "painting" }]
      [{ id := some 1, category := some "painting" }] 1 0 (by decide)⟩

/-- True exactly on the outcome that wrote the output file. -/
def isWritten : MainResult → Bool
  | MainResult.written _ _ _ => true
  | MainResult.configError => false
  | MainResult.noNewNeeded => false

set_option maxRecDepth 100000 in
/-- C5 counterexample: a dataset that already meets every quota makes main
return before writing — not a configuration error, yet no output is
written — refuting the claim that only configuration errors prevent the
write. -/
theorem C5_write_once_counterexample :
    mainModel true "k" (fun _ _ _ _ => Except.error ())
        (List.replicate 200 ({ category := some "painting" } : Artwork)
          ++ List.replicate 64 { category := some "sculpture" }
          ++ List.replicate 64 { category := some "architecture" })
      = MainResult.noNewNeeded ∧
    mainModel true "k" (fun _ _ _ _ => Except.error ())
        (List.replicate 200 ({ category := some "painting" } : Artwork)
          ++ List.replicate 64 { category := some "sculpture" }
          ++ List.replicate 64 { category := some "architecture" })
      ≠ MainResult.configError ∧
    isWritten (mainModel true "k" (fun _ _ _ _ => Except.error ())
        (List.replicate 200 ({ category := some "painting" } : Artwork)
          ++ List.replicate 64 { category := some "sculpture" }
          ++ List.replicate 64 { category := some "architecture" }))
      = false := by
  refine ⟨by decide, by decide, by decide⟩

/-- C5 amended: a run with the input file present, a real credential and a
nonzero total gap writes output exactly once, after every category's filler
has reached a terminal state; a missing input file is a configuration error
producing no output, and a zero total gap returns before writing. -/
theorem C5_write_once_amended (apiKey : String) (gen : String → Oracle)
    (existing : List Artwork) (hk1 : apiKey ≠ PLACEHOLDER_KEY)
    (hk2 : apiKey ≠ "") (hneed : total_needed existing ≠ 0) :
    mainModel true apiKey gen existing
        = MainResult.written (renumber (existing ++ allNewOf gen existing))
          existing.length (allNewOf gen existing).length ∧
    mainModel false apiKey gen existing = MainResult.configError ∧
    ∀ existing2 : List Artwork, total_needed existing2 = 0 →
      mainModel true apiKey gen existing2 = MainResult.noNewNeeded := by
  refine ⟨mainModel_written apiKey gen existing hk1 hk2 hneed, rfl, ?_⟩
  intro existing2 h0
  unfold mainModel
  rw [if_neg (by simp), if_pos h0]

set_option maxRecDepth 100000 in
/-- Witness for C5 amended: one existing painting, an always-raising
oracle, a plain non-placeholder key. -/
theorem C5_write_once_amended_witness :
    (("k" : String) ≠ PLACEHOLDER_KEY ∧ ("k" : String) ≠ "" ∧
      total_needed [{ id := some 7, category := some "painting" }] ≠ 0) ∧
    mainModel true "k" (fun _ _ _ _ => Except.error ())
        [{ id := some 7, category := some "painting" }]
      = MainResult.written
          (renumber ([{ id := some 7, category := some "painting" }]
            ++ allNewOf (fun _ _ _ _ => Except.error ())
              [{ id := some 7, category := some "painting" }]))
          ([{ id := some 7, category := some "painting" }] : List Artwork).length
          (allNewOf (fun _ _ _ _ => Except.error ())
            [{ id := some 7, category := some "painting" }]).length :=
  ⟨⟨by decide, by decide, by decide⟩,
    (C5_write_once_amended "k" (fun _ _ _ _ => Except.error ())
      [{ id := some 7, category := some "painting" }]
      (by decide) (by decide) (by decide)).1⟩

set_option maxRecDepth 100000 in
/-- C9 counterexample: an existing record whose stored id is 7 is written
back with id 1, so a field of a pre-existing record is modified by the run,
refuting the strict read-only claim. -/
theorem C9_readonly_counterexample :
    mainModel true "k" (fun _ _ _ _ => Except.error ())
        [{ id := some 7, category := some "painting" }]
      = MainResult.written [{ id := some 1, category := some "painting" }] 1 0 ∧
    ([{ id := some 1, category := some "painting" }] : List Artwork).take 1
      ≠ [{ id := some 7, category := some "painting" }] :=
  ⟨by decide, by decide⟩

/-- C9 amended: existing records are read-only during generation and keep
their order and every field except id in the written output; ids alone are
reassigned at the final merge; new records are only appended after the
uniqueness filter and nothing is deleted. -/
theorem C9_readonly_amended (inputExists : Bool) (apiKey : String)
    (gen : String → Oracle) (existing : List Artwork) (out : List Artwork)
    (orig extra : Nat)
    (h : mainModel inputExists apiKey gen existing
      = MainResult.written out orig extra) :
    (out.take existing.length).map stripId = existing.map stripId ∧
    (out.drop existing.length).map stripId
      = (allNewOf gen existing).map stripId ∧
    out.length = existing.length + (allNewOf gen existing).length := by
  have hout := mainModel_written_inv inputExists apiKey gen existing out
    orig extra h
  have hsplit : out = renumberFrom 0 existing
      ++ renumberFrom (0 + existing.length) (allNewOf gen existing) := by
    rw [hout]
    exact renumberFrom_append 0 existing (allNewOf gen existing)
  refine ⟨?_, ?_, ?_⟩
  · rw [hsplit, List.take_left' (renumberFrom_length 0 existing),
      renumberFrom_map_stripId]
  · rw [hsplit, List.drop_left' (renumberFrom_length 0 existing),
      renumberFrom_map_stripId]
  · rw [hout]
    unfold renumber
    rw [renumberFrom_length, List.length_append]

set_option maxRecDepth 100000 in
/-- Witness for C9 amended at the same concrete run as the counterexample. -/
theorem C9_readonly_amended_witness :
    (mainModel true "k" (fun _ _ _ _ => Except.error ())
        [{ id := some 7, category := some "painting" }]
      = MainResult.written [{ id := some 1, category := some "painting" }] 1 0) ∧
    ((([{ id := some 1, category := some "painting" }] : List Artwork).take
          ([{ id := some 7, category := some "painting" }] : List Artwork).length).map stripId
        = ([{ id := some 7, category := some "painting" }] : List Artwork).map stripId ∧
      (([{ id := some 1, category := some "painting" }] : List Artwork).drop
          ([{ id := some 7, category := some "painting" }] : List Artwork).length).map stripId
        = (allNewOf (fun _ _ _ _ => Except.error ())
            [{ id := some 7, category := some "painting" }]).map stripId ∧
      ([{ id := some 1, category := some "painting" }] : List Artwork).length
        = ([{ id := some 7, category := some "painting" }] : List Artwork).length
          + (allNewOf (fun _ _ _ _ => Except.error ())
            [{ id := some 7, category := some "painting" }]).length) :=
  ⟨by decide,
    C9_readonly_amended true "k" (fun _ _ _ _ => Except.error ())
      [{ id := some 7, category := some "painting" }]
      [{ id := some 1, category := some "painting" }] 1 0 (by decide)⟩

theorem sanitize_chain (inner wsA wsB : List Char)
    (hbt : ∀ c ∈ inner, c ≠ btick)
    (hclean : commaCleanL inner = true)
    (hwsA : ∀ c ∈ wsA, c.isWhitespace)
    (hwsB : ∀ c ∈ wsB, c.isWhitespace) :
    subTrailingComma
      (stripL (subFenceBare
        (subFenceJson
          (fenceJson ++ (wsA ++ (('[' :: (inner ++ [',', ']'])) ++ (wsB ++ fence3)))).length
          (fenceJson ++ (wsA ++ (('[' :: (inner ++ [',', ']'])) ++ (wsB ++ fence3))))).length
        (subFenceJson
          (fenceJson ++ (wsA ++ (('[' :: (inner ++ [',', ']'])) ++ (wsB ++ fence3)))).length
          (fenceJson ++ (wsA ++ (('[' :: (inner ++ [',', ']'])) ++ (wsB ++ fence3))))))).length
      (stripL (subFenceBare
        (subFenceJson
          (fenceJson ++ (wsA ++ (('[' :: (inner ++ [',', ']'])) ++ (wsB ++ fence3)))).length
          (fenceJson ++ (wsA ++ (('[' :: (inner ++ [',', ']'])) ++ (wsB ++ fence3))))).length
        (subFenceJson
          (fenceJson ++ (wsA ++ (('[' :: (inner ++ [',', ']'])) ++ (wsB ++ fence3)))).length
          (fenceJson ++ (wsA ++ (('[' :: (inner ++ [',', ']'])) ++ (wsB ++ fence3)))))))
      = '[' :: (inner ++ [']']) := by
  have hb3 : fence3.length = 3 := by decide
  have hbodyB : ∀ c ∈ ('[' :: (inner ++ [',', ']'])) ++ wsB, c ≠ btick := by
    intro c hc
    rcases List.mem_append.mp hc with hc1 | hc2
    · rcases List.mem_cons.mp hc1 with rfl | hc1'
      · decide
      · rcases List.mem_append.mp hc1' with hgo | hcm
        · exact hbt c hgo
        · have hcm2 : c = ',' ∨ c = ']' := by simpa using hcm
          rcases hcm2 with rfl | rfl <;> decide
    · intro hcb
      have hw := hwsB c hc2
      rw [hcb] at hw
      exact absurd hw (by decide)
  have h1 : subFenceJson
      (fenceJson ++ (wsA ++ (('[' :: (inner ++ [',', ']'])) ++ (wsB ++ fence3)))).length
      (fenceJson ++ (wsA ++ (('[' :: (inner ++ [',', ']'])) ++ (wsB ++ fence3))))
      = (('[' :: (inner ++ [',', ']'])) ++ wsB) ++ fence3 := by
    rw [show (fenceJson ++ (wsA ++ (('[' :: (inner ++ [',', ']'])) ++ (wsB ++ fence3)))).length
        = ((wsA ++ (('[' :: (inner ++ [',', ']'])) ++ (wsB ++ fence3))).length + 6) + 1 from by
      rw [List.length_append]
      have h7 : fenceJson.length = 7 := by decide
      omega]
    rw [subFenceJson_fence]
    rw [List.dropWhile_append_of_pos hwsA]
    rw [show (('[' :: (inner ++ [',', ']'])) ++ (wsB ++ fence3))
        = '[' :: ((inner ++ [',', ']']) ++ (wsB ++ fence3)) from rfl]
    rw [List.dropWhile_cons_of_neg (by decide)]
    rw [show ('[' : Char) :: ((inner ++ [',', ']']) ++ (wsB ++ fence3))
        = ((('[' :: (inner ++ [',', ']'])) ++ wsB) ++ fence3) from by simp]
    rw [subFenceJson_pass _ _ _ hbodyB (by
      simp only [List.length_append, List.length_cons]
      omega)]
    rw [subFenceJson_fence3 _ (by
      simp only [List.length_append, List.length_cons, hb3]
      omega)]
  rw [h1]
  have h2 : subFenceBare ((('[' :: (inner ++ [',', ']'])) ++ wsB) ++ fence3).length
      ((('[' :: (inner ++ [',', ']'])) ++ wsB) ++ fence3)
      = ('[' :: (inner ++ [',', ']'])) ++ wsB := by
    rw [subFenceBare_pass _ _ _ hbodyB (by
      simp only [List.length_append, List.length_cons]
      omega)]
    rw [subFenceBare_fence3 _ (by
      simp only [List.length_append, List.length_cons, hb3]
      omega)]
    simp
  rw [h2]
  have h3 : stripL (('[' :: (inner ++ [',', ']'])) ++ wsB)
      = '[' :: (inner ++ [',', ']']) := by
    have h30 := stripL_append_ws [] ('[' :: (inner ++ [',', ']'])) wsB
      (by simp) hwsB
    rw [List.nil_append] at h30
    rw [h30]
    rw [show ('[' : Char) :: (inner ++ [',', ']'])
        = '[' :: ((inner ++ [',']) ++ [']']) from by simp]
    exact stripL_eq_self (inner ++ [',']) (by decide) (by decide)
  rw [h3]
  rw [List.length_cons]
  simp only [subTrailingComma]
  rw [if_neg (by decide)]
  rw [subTrailingComma_clean inner _ hclean (by simp)]

/-- C7: for a well-formed array body wrapped in the markdown fence markers,
with one trailing comma immediately before the closing bracket, whitespace
after the opening fence and before the closing one, no backtick and no
trailing-comma pattern inside the body, the Sanitizer returns exactly the
fence-free comma-clean text, so any parse of the sanitized text equals the
parse of that clean text directly. -/
theorem C7_sanitizer_roundtrip (inner wsA wsB : List Char)
    (hbt : ∀ c ∈ inner, c ≠ btick)
    (hclean : commaCleanL inner = true)
    (hwsA : ∀ c ∈ wsA, c.isWhitespace)
    (hwsB : ∀ c ∈ wsB, c.isWhitespace) :
    sanitizeText (String.mk (fenceJson
        ++ (wsA ++ (('[' :: (inner ++ [',', ']'])) ++ (wsB ++ fence3)))))
      = String.mk ('[' :: (inner ++ [']'])) ∧
    ∀ parse : String → Option (List Artwork),
      parse (sanitizeText (String.mk (fenceJson
          ++ (wsA ++ (('[' :: (inner ++ [',', ']'])) ++ (wsB ++ fence3))))))
        = parse (String.mk ('[' :: (inner ++ [']']))) := by
  have hchain := sanitize_chain inner wsA wsB hbt hclean hwsA hwsB
  have hmain : sanitizeText (String.mk (fenceJson
      ++ (wsA ++ (('[' :: (inner ++ [',', ']'])) ++ (wsB ++ fence3)))))
      = String.mk ('[' :: (inner ++ [']'])) := congrArg String.mk hchain
  exact ⟨hmain, fun parse => congrArg parse hmain⟩

/-- Witness for C7: the fenced text with body [1, 2,] and newline padding
sanitizes to [1, 2]. -/
theorem C7_sanitizer_roundtrip_witness :
    ((∀ c ∈ ("1, 2".data : List Char), c ≠ btick) ∧
      commaCleanL "1, 2".data = true ∧
      (∀ c ∈ ("\n".data : List Char), c.isWhitespace)) ∧
    sanitizeText (String.mk (fenceJson
        ++ ("\n".data ++ (('[' :: ("1, 2".data ++ [',', ']']))
          ++ ("\n".data ++ fence3)))))
      = String.mk ('[' :: ("1, 2".data ++ [']'])) :=
  ⟨⟨by decide, by decide, by decide⟩,
    (C7_sanitizer_roundtrip "1, 2".data "\n".data "\n".data
      (by decide) (by decide) (by decide) (by decide)).1⟩

end ArtScript
